import Mathlib

/-!
Shallow embedding of the ralphy task-execution orchestrator
(src/ralphy.sh and src/cli/src/engines/base.ts,
src/cli/src/tasks/markdown-folder.ts).

Modelling conventions:
- A line of agent stream output is `Option JsonRecord`: `none` models a line
  that is not parseable as JSON (JSON.parse throws / grep finds no record),
  `some r` models the parsed record, with `r.content` carrying
  `JSON.stringify(parsed).toLowerCase()` as an abstract serialized form.
- Strings are Lean `String`; substring containment (`String.includes`,
  `grep` fixed-pattern search) is `containsSub`; the anchored regex
  `/^- \[ \] /` test is `startsWithChars todoMark`.
- Agent invocations are modelled by a function `attempts : Nat → String`
  giving the raw captured output of the k-th invocation; retry loops
  recurse structurally on the remaining attempt budget.
- Shell functions keep their source names where Lean allows.
-/

namespace Ralphy

/-- Anchored character-list comparison: `startsWithChars p l` is true iff
`p` is an initial segment of `l`.  Models an anchored regex test such as
JavaScript `/^- \[ \] /` or bash `^- \[ \]`. -/
def startsWithChars : List Char → List Char → Bool
  | [], _ => true
  | _ :: _, [] => false
  | p :: ps, c :: cs => p == c && startsWithChars ps cs

/-- Occurrence of `needle` as a contiguous segment of the second list.
Models JavaScript `String.prototype.includes` and `grep` fixed-string search. -/
def occursIn (needle : List Char) : List Char → Bool
  | [] => needle.isEmpty
  | c :: cs => startsWithChars needle (c :: cs) || occursIn needle cs

/-- Substring containment on strings: `containsSub s sub` models `s.includes(sub)`. -/
def containsSub (s sub : String) : Bool :=
  occursIn sub.data s.data

/-- JavaScript `a || d` where `a` is a possibly absent string and the empty
string is falsy: an absent or empty value yields the default `d`. -/
def strOr (o : Option String) (d : String) : String :=
  match o with
  | some s => if s = "" then d else s
  | none => d

/-- JavaScript `a || 0` where `a` is a possibly absent number. -/
def natOr (o : Option Nat) : Nat :=
  match o with
  | some k => k
  | none => 0

/-- One parsed JSON record of the agent stream protocol
(src/cli/src/engines/base.ts).  Fields mirror the properties the code reads:
`type`, `result`, `usage.input_tokens`, `usage.output_tokens`,
`error.message`, `message`, `tool`, `name`, `tool_name`, `command`.
`content` carries `JSON.stringify(parsed).toLowerCase()`, the lowercased
serialization that `detectStepFromOutput` scans for keywords. -/
structure JsonRecord where
  type : Option String
  result : Option String
  usageIn : Option Nat
  usageOut : Option Nat
  errMsg : Option String
  msg : Option String
  tool : Option String
  name : Option String
  tool_name : Option String
  command : Option String
  content : String
deriving DecidableEq

/-- Result of `parseStreamJsonResult` (base.ts lines 47-71). -/
structure StreamResult where
  response : String
  inputTokens : Nat
  outputTokens : Nat
deriving DecidableEq

/-- Loop body of `parseStreamJsonResult` (base.ts lines 57-68): each line that
parses as a record of type `"result"` overwrites the accumulated response and
token counts; every other line (including unparseable ones) is skipped. -/
def parseLoop : List (Option JsonRecord) → StreamResult → StreamResult
  | [], acc => acc
  | none :: rest, acc => parseLoop rest acc
  | some r :: rest, acc =>
    if r.type = some "result" then
      parseLoop rest ⟨strOr r.result "Task completed", natOr r.usageIn, natOr r.usageOut⟩
    else
      parseLoop rest acc

/-- `parseStreamJsonResult` (base.ts lines 47-71): runs the line loop from the
empty accumulator and applies the final `response || "Task completed"` default. -/
def parseStreamJsonResult (lines : List (Option JsonRecord)) : StreamResult :=
  let s := parseLoop lines ⟨"", 0, 0⟩
  ⟨strOr (some s.response) "Task completed", s.inputTokens, s.outputTokens⟩

/-- `checkForErrors` (base.ts lines 76-91): returns the message of the first
record whose `type` is `"error"` (`parsed.error?.message || parsed.message ||
"Unknown error"`), skipping unparseable lines; `none` when no error record. -/
def checkForErrors : List (Option JsonRecord) → Option String
  | [] => none
  | none :: rest => checkForErrors rest
  | some r :: rest =>
    if r.type = some "error" then some (strOr r.errMsg (strOr r.msg "Unknown error"))
    else checkForErrors rest

/-- One line of the raw output as the shell parser sees it
(ralphy.sh `parse_ai_result`, lines 856-903): `raw` is the text of the line,
scanned by `grep` for fixed substrings, and `parsed` is the record `jq`
would extract from it (`none` when the line is not valid JSON and `jq`
fails). -/
structure ShellLine where
  raw : String
  parsed : Option JsonRecord
deriving DecidableEq

/-- Response extraction from the selected result line in the Claude branch of
`parse_ai_result` (ralphy.sh line 888):
`jq -r '.result // "No result text"' || echo "Could not parse result"`.
`jq`'s `//` falls back only on null/false, so an absent `result` field gives
the literal `"No result text"` (never the `"Task completed"` sentinel), and
an unparseable line gives `"Could not parse result"`. -/
def claudeResponseOf (line : ShellLine) : String :=
  match line.parsed with
  | none => "Could not parse result"
  | some r =>
    match r.result with
    | some s => s
    | none => "No result text"

/-- Response of `parse_ai_result` in Claude mode (ralphy.sh lines 857-858,
882-892, 898): `response` starts empty, the last line containing the fixed
substring `"type":"result"` is selected (`grep '"type":"result"' | tail -1`),
and only when such a line exists is `response` overwritten — so with no
result line the function emits the empty string. -/
def parse_ai_result_claude (slines : List ShellLine) : String :=
  match (slines.filter fun l => containsSub l.raw "\"type\":\"result\"").getLast? with
  | none => ""
  | some line => claudeResponseOf line

/-- Tool-name extraction of `detectStepFromOutput` (base.ts lines 176-180):
`parsed.tool?.toLowerCase() || parsed.name?.toLowerCase() ||
parsed.tool_name?.toLowerCase() || ""`. -/
def toolNameOf (r : JsonRecord) : String :=
  strOr (r.tool.map String.toLower)
    (strOr (r.name.map String.toLower) (strOr (r.tool_name.map String.toLower) ""))

/-- Command extraction of `detectStepFromOutput` (base.ts line 182):
`parsed.command?.toLowerCase() || ""`. -/
def commandOf (r : JsonRecord) : String :=
  strOr (r.command.map String.toLower) ""

/-- Category test: git commit line (base.ts line 186). -/
def isCommitLine (r : JsonRecord) : Bool :=
  containsSub r.content "git commit" || containsSub (commandOf r) "git commit"

/-- Category test: git add / staging line (base.ts line 191). -/
def isStagingLine (r : JsonRecord) : Bool :=
  containsSub r.content "git add" || containsSub (commandOf r) "git add"

/-- Category test: lint keyword (base.ts lines 196-201). -/
def isLintLine (r : JsonRecord) : Bool :=
  containsSub r.content "lint" || containsSub r.content "eslint" ||
    containsSub r.content "biome" || containsSub r.content "prettier"

/-- Category test: test-runner keyword (base.ts lines 206-213). -/
def isTestRunLine (r : JsonRecord) : Bool :=
  containsSub r.content "vitest" || containsSub r.content "jest" ||
    containsSub r.content "bun test" || containsSub r.content "npm test" ||
    containsSub r.content "pytest" || containsSub r.content "go test"

/-- Category test: test-file-path pattern (base.ts lines 218-223). -/
def isTestFileLine (r : JsonRecord) : Bool :=
  containsSub r.content ".test." || containsSub r.content ".spec." ||
    containsSub r.content "__tests__" || containsSub r.content "_test.go"

/-- Category test: write/edit tool name (base.ts line 228). -/
def isWriteTool (r : JsonRecord) : Bool :=
  toolNameOf r == "write" || toolNameOf r == "edit"

/-- Category test: read/glob/grep tool name (base.ts line 233). -/
def isReadTool (r : JsonRecord) : Bool :=
  toolNameOf r == "read" || toolNameOf r == "glob" || toolNameOf r == "grep"

/-- `detectStepFromOutput` (base.ts lines 165-241).  A line that does not
parse as JSON (the non-`{` fast path, or a JSON.parse failure) is `none` and
yields no step.  The nested conditionals are translated branch for branch. -/
def detectStepFromOutput (line : Option JsonRecord) : Option String :=
  match line with
  | none => none
  | some r =>
    if isCommitLine r then some "Committing"
    else if isStagingLine r then some "Staging"
    else if isLintLine r then some "Linting"
    else if isTestRunLine r then some "Testing"
    else if isTestFileLine r then some "Writing tests"
    else if isWriteTool r then some "Implementing"
    else if isReadTool r then some "Reading code"
    else none

/-- First label in an ordered category list whose test accepts the record;
`none` when no category matches.  Used to state precedence claims about the
step detector. -/
def firstMatch : List ((JsonRecord → Bool) × String) → JsonRecord → Option String
  | [], _ => none
  | c :: cs, r => if c.1 r then some c.2 else firstMatch cs r

/-- The category order actually implemented by `detectStepFromOutput`
(base.ts lines 186-237): commit, staging, lint, test runner, test file,
write/edit tool, read/glob/grep tool. -/
def codeStepOrder : List ((JsonRecord → Bool) × String) :=
  [(isCommitLine, "Committing"), (isStagingLine, "Staging"),
   (isLintLine, "Linting"), (isTestRunLine, "Testing"),
   (isTestFileLine, "Writing tests"), (isWriteTool, "Implementing"),
   (isReadTool, "Reading code")]

/-- Modelled from the spec: the "tracker-file mention" category the spec's
precedence list places between staging and lint.  A tracker file is the
progress log or the PRD task list, as in the shell monitor's patterns
`progress\.txt` and `PRD\.md|tasks\.yaml` (ralphy.sh lines 661-664). -/
def isTrackerLine (r : JsonRecord) : Bool :=
  containsSub r.content "progress.txt" || containsSub r.content "prd.md" ||
    containsSub r.content "tasks.yaml"

/-- Modelled from the spec: the claimed category order for the step detector,
with the tracker-file category checked third, between staging and lint. -/
def specStepOrder : List ((JsonRecord → Bool) × String) :=
  [(isCommitLine, "Committing"), (isStagingLine, "Staging"),
   (isTrackerLine, "Updating tracker"),
   (isLintLine, "Linting"), (isTestRunLine, "Testing"),
   (isTestFileLine, "Writing tests"), (isWriteTool, "Implementing"),
   (isReadTool, "Reading code")]

/-- A record whose only feature is a tracker-file mention in its content:
it matches the tracker-file category and nothing else. -/
def trackerOnlyRec : JsonRecord :=
  ⟨none, none, none, none, none, none, none, none, none, none, "progress.txt"⟩

/-- Bool test used to state C6: the line parses as a record of type
`"result"` carrying non-empty result text. -/
def isResultWithText : Option JsonRecord → Bool
  | none => false
  | some r => (r.type == some "result") && !(r.result.getD "" == "")

/-- The unchecked-checkbox line pattern `- [ ] ` of the markdown task source. -/
def todoMark : List Char :=
  ['-', ' ', '[', ' ', ']', ' ']

/-- The checked-checkbox replacement `- [x] `. -/
def doneMark : List Char :=
  ['-', ' ', '[', 'x', ']', ' ']

/-- The line rewrite of `MarkdownFolderTaskSource.markComplete`
(markdown-folder.ts line 103): `line.replace(/^- \[ \] /, "- [x] ")`,
which rewrites only an anchored `- [ ] ` prefix and leaves any other
line unchanged. -/
def replaceCheckbox (line : String) : String :=
  if startsWithChars todoMark line.data then String.mk (doneMark ++ line.data.drop 6)
  else line

/-- `MarkdownFolderTaskSource.markComplete` (markdown-folder.ts lines 95-106)
after `parseTaskId`: the backing file is its list of lines, `lineNumber` is
the parsed 1-based line number (an `Int`, since `parseInt` may produce a
value outside the file's range).  Only an in-range line is rewritten. -/
def markComplete (file : List String) (lineNumber : Int) : List String :=
  let lineIndex := lineNumber - 1
  if 0 ≤ lineIndex ∧ lineIndex < (file.length : Int) then
    file.set lineIndex.toNat (replaceCheckbox (file.getD lineIndex.toNat ""))
  else
    file

/-- Batch partition loop of `run_parallel_tasks` (ralphy.sh lines 1316-1341,
1490): `batch_start` advances by `MAX_PARALLEL`; each batch is the slice
`tasks[batch_start..batch_end)` with `batch_end = min (batch_start + p) N`.
The source presumes `MAX_PARALLEL ≥ 1`; the `0 < p` guard makes the
recursion terminating (at `p = 0` the shell loop would not advance). -/
def batchesFrom (tasks : List String) (p : Nat) (start : Nat) : List (List String) :=
  if h : 0 < p ∧ start < tasks.length then
    ((tasks.drop start).take p) :: batchesFrom tasks p (start + p)
  else
    []
termination_by tasks.length - start
decreasing_by
  omega

/-- The BatchPlan of `run_parallel_tasks`: batches from `batch_start = 0`. -/
def makeBatches (tasks : List String) (p : Nat) : List (List String) :=
  batchesFrom tasks p 0

/-- Structural form of the batch partition used for induction: chunk the
pending list front-first into groups of `p`. -/
def chunkList (l : List String) (p : Nat) : List (List String) :=
  if h : 0 < p ∧ l ≠ [] then l.take p :: chunkList (l.drop p) p
  else []
termination_by l.length
decreasing_by
  have hl : 0 < l.length := List.length_pos.mpr h.2
  simp only [List.length_drop]
  omega

/-- Raw output of one sequential attempt contains an error record:
`check_for_errors` (ralphy.sh lines 905-916) greps the combined output for
the fixed string `"type":"error"`. -/
def hasErrorRecord (raw : String) : Bool :=
  containsSub raw "\"type\":\"error\""

/-- Raw output contains the promise marker: `run_single_task`
(ralphy.sh line 1098) tests `[[ "$result" == *"<promise>COMPLETE</promise>"* ]]`. -/
def hasCompleteMarker (raw : String) : Bool :=
  containsSub raw "<promise>COMPLETE</promise>"

/-- Outcome of one `run_single_task` call (ralphy.sh lines 937-1107):
`code` is the shell return status (0 success, 1 retries exhausted,
2 all work complete), `markedComplete` records whether the orchestrator
itself called `mark_task_complete`, `succeeded` whether the success path
after a non-empty, error-free attempt was reached. -/
structure SeqTaskResult where
  code : Nat
  markedComplete : Bool
  succeeded : Bool
deriving DecidableEq

/-- Retry loop of `run_single_task` (ralphy.sh lines 992-1103).  `attempts k`
is the raw captured output of the k-th agent invocation; the second `Nat` is
the remaining attempt budget (`MAX_RETRIES - retry_count`).  An empty output
or a detected error record consumes one attempt; a successful attempt marks
the task complete exactly when the task source is github (lines 1084-1087)
and returns 2 exactly when the raw output contains the promise marker
(lines 1097-1100), else 0.  An exhausted budget returns 1. -/
def seqRetryLoop (source : String) (attempts : Nat → String) : Nat → Nat → SeqTaskResult
  | _, 0 => ⟨1, false, false⟩
  | retryCount, fuel + 1 =>
    let result := attempts retryCount
    if result = "" then seqRetryLoop source attempts (retryCount + 1) fuel
    else if hasErrorRecord result then seqRetryLoop source attempts (retryCount + 1) fuel
    else
      ⟨if hasCompleteMarker result then 2 else 0, source == "github", true⟩

/-- `run_single_task` (ralphy.sh lines 937-1107).  `remaining` and
`completed` are the task-source counts fetched at entry (lines 946-950);
they are displayed only and never influence the outcome.  An empty current
task returns 2 ("no more tasks", line 961-964).  Branching, dry-run and PR
creation are display/git side effects outside the embedded state. -/
def run_single_task (source task : String) (remaining completed : Nat)
    (attempts : Nat → String) (maxRetries : Nat) : SeqTaskResult :=
  if task = "" then ⟨2, false, false⟩
  else seqRetryLoop source attempts 0 maxRetries

/-- Decision of the sequential main loop (ralphy.sh lines 1606-1637) after
one `run_single_task` returns: code 2 ends the whole run successfully at
once; otherwise the loop continues unless the iteration cap is reached. -/
inductive MainDecision
  | continueLoop
  | exitAllDone
  | exitMaxIterations
deriving DecidableEq

/-- One step of the sequential main loop (ralphy.sh lines 1611-1633):
the case statement on the return code, then the max-iterations check.
Both exits terminate the process with status 0. -/
def mainStep (code : Nat) (iteration maxIterations : Nat) : MainDecision :=
  if code = 2 then MainDecision.exitAllDone
  else if 0 < maxIterations ∧ maxIterations ≤ iteration then MainDecision.exitMaxIterations
  else MainDecision.continueLoop

/-- Outcome of one `run_parallel_agent` call (ralphy.sh lines 1151-1276):
the terminal value written to the status file, the number of agent
invocations performed, and the branch recorded on success. -/
structure AgentRunResult where
  status : String
  invocations : Nat
  branch : Option String
deriving DecidableEq

/-- Retry loop of `run_parallel_agent` (ralphy.sh lines 1206-1233):
invoke the agent, accept the first non-empty raw output, otherwise retry
until the budget (`MAX_RETRIES - retry`) is exhausted.  Returns the number
of invocations made and the accepted output, if any. -/
def agentRetryLoop (attempts : Nat → String) : Nat → Nat → Nat × Option String
  | retry, 0 => (retry, none)
  | retry, fuel + 1 =>
    if attempts retry = "" then agentRetryLoop attempts (retry + 1) fuel
    else (retry + 1, some (attempts retry))

/-- `run_parallel_agent` (ralphy.sh lines 1151-1276): when the worktree
directory does not exist after the create step the run is marked `failed`
with no agent invocation (lines 1166-1171); otherwise the retry loop runs,
a non-empty output yields `done` with the branch recorded (lines 1237-1269),
and an exhausted budget yields `failed` (lines 1270-1275). -/
def run_parallel_agent (worktreeOk : Bool) (branchName : String)
    (attempts : Nat → String) (maxRetries : Nat) : AgentRunResult :=
  if worktreeOk then
    match agentRetryLoop attempts 0 maxRetries with
    | (n, some _res) => ⟨"done", n, some branchName⟩
    | (n, none) => ⟨"failed", n, none⟩
  else
    ⟨"failed", 0, none⟩

/-- Post-batch bookkeeping of `run_parallel_tasks` (ralphy.sh lines
1444-1469): `mark_task_complete_*` is invoked for a slot exactly when its
status file holds `done`. -/
def postBatchMarks (status : String) : Bool :=
  status == "done"
/-! ## Helper lemmas -/

/-- The indexed batch loop computes the same partition as front-first chunking
of the still-pending suffix. -/
theorem batchesFrom_eq_chunk (tasks : List String) (p : Nat) :
    ∀ (n start : Nat), tasks.length - start ≤ n →
      batchesFrom tasks p start = chunkList (tasks.drop start) p := by
  intro n
  induction n with
  | zero =>
    intro start hle
    have hdrop : tasks.drop start = [] := List.drop_eq_nil_of_le (by omega)
    rw [batchesFrom, chunkList, hdrop]
    simp
    omega
  | succ n ih =>
    intro start hle
    rw [batchesFrom, chunkList]
    by_cases hp : 0 < p
    · by_cases hs : start < tasks.length
      · have hne : tasks.drop start ≠ [] := by
          intro hnil
          rw [List.drop_eq_nil_iff] at hnil
          omega
        rw [dif_pos ⟨hp, hs⟩, dif_pos ⟨hp, hne⟩]
        congr 1
        rw [List.drop_drop]
        exact ih (start + p) (by omega)
      · have hdrop : tasks.drop start = [] := List.drop_eq_nil_of_le (by omega)
        rw [dif_neg (by omega), dif_neg (by simp [hdrop])]
    · rw [dif_neg (by omega), dif_neg (by intro hc; exact hp hc.1)]

/-- Chunk concatenation restores the original list. -/
theorem chunkList_flatten (p : Nat) (hp : 0 < p) :
    ∀ (n : Nat) (l : List String), l.length ≤ n → (chunkList l p).flatten = l := by
  intro n
  induction n with
  | zero =>
    intro l hle
    have : l = [] := List.eq_nil_of_length_eq_zero (by omega)
    subst this
    rw [chunkList]
    simp
  | succ n ih =>
    intro l hle
    rw [chunkList]
    by_cases hne : l = []
    · rw [dif_neg (by intro hc; exact hc.2 hne)]
      simp [hne]
    · rw [dif_pos ⟨hp, hne⟩]
      have hlen : 0 < l.length := List.length_pos.mpr hne
      rw [List.flatten_cons]
      rw [ih (l.drop p) (by simp [List.length_drop]; omega)]
      exact List.take_append_drop p l

/-- The number of chunks is the ceiling of the length divided by the chunk size. -/
theorem chunkList_length (p : Nat) (hp : 0 < p) :
    ∀ (n : Nat) (l : List String), l.length ≤ n →
      (chunkList l p).length = (l.length + p - 1) / p := by
  intro n
  induction n with
  | zero =>
    intro l hle
    have : l = [] := List.eq_nil_of_length_eq_zero (by omega)
    subst this
    rw [chunkList]
    simp
    rw [Nat.div_eq_of_lt (by omega)]
  | succ n ih =>
    intro l hle
    rw [chunkList]
    by_cases hne : l = []
    · rw [dif_neg (by intro hc; exact hc.2 hne)]
      subst hne
      simp
      rw [Nat.div_eq_of_lt (by omega)]
    · rw [dif_pos ⟨hp, hne⟩]
      have hlen : 0 < l.length := List.length_pos.mpr hne
      rw [List.length_cons]
      rw [ih (l.drop p) (by simp [List.length_drop]; omega)]
      rw [List.length_drop]
      by_cases hbig : p < l.length
      · have heq : l.length + p - 1 = (l.length - p + p - 1) + p := by omega
        rw [heq, Nat.add_div_right _ hp]
      · have h1 : l.length - p = 0 := by omega
        rw [h1]
        rw [Nat.div_eq_of_lt (by omega)]
        rw [@Nat.div_eq_of_lt_le 1 p (l.length + p - 1) (by omega) (by omega)]

/-- Chunking a non-empty list yields at least one chunk. -/
theorem chunkList_ne_nil (p : Nat) (hp : 0 < p) (l : List String) (hne : l ≠ []) :
    chunkList l p ≠ [] := by
  rw [chunkList, dif_pos ⟨hp, hne⟩]
  exact List.cons_ne_nil _ _

/-- The chunk list is empty exactly for the empty input (chunk size positive). -/
theorem chunkList_nil_iff (p : Nat) (hp : 0 < p) (l : List String) :
    chunkList l p = [] ↔ l = [] := by
  constructor
  · intro h
    by_contra hne
    exact chunkList_ne_nil p hp l hne h
  · intro h
    subst h
    rw [chunkList]
    simp

/-- Every chunk except possibly the last is full. -/
theorem chunkList_dropLast (p : Nat) (hp : 0 < p) :
    ∀ (n : Nat) (l : List String), l.length ≤ n →
      ∀ b ∈ (chunkList l p).dropLast, b.length = p := by
  intro n
  induction n with
  | zero =>
    intro l hle b hb
    have : l = [] := List.eq_nil_of_length_eq_zero (by omega)
    subst this
    rw [chunkList] at hb
    simp at hb
  | succ n ih =>
    intro l hle b hb
    rw [chunkList] at hb
    by_cases hne : l = []
    · rw [dif_neg (fun hc => hc.2 hne)] at hb
      simp at hb
    · rw [dif_pos ⟨hp, hne⟩] at hb
      by_cases hrest : chunkList (l.drop p) p = []
      · rw [hrest] at hb
        simp at hb
      · have hgt : p < l.length := by
          by_contra hle2
          push_neg at hle2
          have hdrop : l.drop p = [] := List.drop_eq_nil_of_le hle2
          rw [hdrop] at hrest
          exact hrest ((chunkList_nil_iff p hp []).mpr rfl)
        rw [List.dropLast_cons_of_ne_nil hrest] at hb
        rcases List.mem_cons.mp hb with hb | hb
        · subst hb
          rw [List.length_take]
          omega
        · exact ih (l.drop p) (by simp [List.length_drop]; omega) b hb

/-- The last chunk carries the remainder of the division (or a full chunk when
the chunk size divides the length). -/
theorem chunkList_getLast (p : Nat) (hp : 0 < p) :
    ∀ (n : Nat) (l : List String), l.length ≤ n → l ≠ [] →
      (chunkList l p).getLast?.map List.length =
        some (if l.length % p = 0 then p else l.length % p) := by
  intro n
  induction n with
  | zero =>
    intro l hle hne
    exact absurd (List.eq_nil_of_length_eq_zero (by omega)) hne
  | succ n ih =>
    intro l hle hne
    have hlen : 0 < l.length := List.length_pos.mpr hne
    rw [chunkList, dif_pos ⟨hp, hne⟩]
    by_cases hrest : chunkList (l.drop p) p = []
    · have hlp : l.length ≤ p := by
        by_contra hgt
        push_neg at hgt
        have : l.drop p ≠ [] := by
          intro hnil
          rw [List.drop_eq_nil_iff] at hnil
          omega
        exact chunkList_ne_nil p hp (l.drop p) this hrest
      rw [hrest]
      simp only [List.getLast?_singleton, Option.map_some', List.length_take]
      rcases Nat.lt_or_ge l.length p with hlt | hge
      · rw [Nat.mod_eq_of_lt hlt, if_neg (by omega)]
        congr 1
        omega
      · have heq : l.length = p := Nat.le_antisymm hlp hge
        rw [heq]
        simp [Nat.mod_self]
    · have hgt : p < l.length := by
        by_contra hle2
        push_neg at hle2
        have hdrop : l.drop p = [] := List.drop_eq_nil_of_le hle2
        rw [hdrop] at hrest
        exact hrest ((chunkList_nil_iff p hp []).mpr rfl)
      have hdne : l.drop p ≠ [] := by
        intro hnil
        rw [List.drop_eq_nil_iff] at hnil
        omega
      have hih := ih (l.drop p) (by simp [List.length_drop]; omega) hdne
      rcases hcons : chunkList (l.drop p) p with _ | ⟨c, cs⟩
      · exact absurd hcons hrest
      · rw [List.getLast?_cons_cons]
        rw [hcons] at hih
        rw [hih]
        rw [List.length_drop]
        have hmod : (l.length - p) % p = l.length % p := (Nat.mod_eq_sub_mod (by omega)).symm
        rw [hmod]

/-- Writing back the element already stored at an index is a no-op. -/
theorem set_getD_self : ∀ (l : List String) (i : Nat), l.set i (l.getD i "") = l
  | [], _ => rfl
  | _ :: _, 0 => rfl
  | a :: l, i + 1 => congrArg (a :: ·) (set_getD_self l i)

/-- Reading back an in-range updated index yields the written value. -/
theorem getD_set_self (a : String) : ∀ (l : List String) (i : Nat), i < l.length →
    (l.set i a).getD i "" = a
  | [], _, h => absurd h (by simp)
  | _ :: _, 0, _ => rfl
  | _ :: l, i + 1, h => getD_set_self a l i (by simpa using h)

/-- Updating one index leaves every other index unchanged. -/
theorem getD_set_ne (a : String) : ∀ (l : List String) (i j : Nat), i ≠ j →
    (l.set i a).getD j "" = l.getD j ""
  | [], _, _, _ => rfl
  | _ :: _, 0, 0, h => absurd rfl h
  | _ :: _, 0, _ + 1, _ => rfl
  | _ :: _, _ + 1, 0, _ => rfl
  | _ :: l, i + 1, j + 1, h => getD_set_ne a l i j (fun e => h (by rw [e]))

/-- A line already rewritten to `- [x] ` no longer carries the `- [ ] ` pattern. -/
theorem todoMark_not_starts_done (rest : List Char) :
    startsWithChars todoMark (doneMark ++ rest) = false := rfl

/-- The checkbox rewrite is idempotent on a single line. -/
theorem replaceCheckbox_idem (line : String) :
    replaceCheckbox (replaceCheckbox line) = replaceCheckbox line := by
  by_cases h : startsWithChars todoMark line.data = true
  · have h1 : replaceCheckbox line = String.mk (doneMark ++ line.data.drop 6) := by
      rw [replaceCheckbox, if_pos h]
    rw [h1, replaceCheckbox]
    rw [show (String.mk (doneMark ++ line.data.drop 6)).data = doneMark ++ line.data.drop 6 from rfl]
    rw [todoMark_not_starts_done]
    simp
  · have h1 : replaceCheckbox line = line := by
      rw [replaceCheckbox, if_neg h]
    rw [h1, h1]

/-- Invariant of the sequential retry loop: the orchestrator-side completion
mark is set exactly on the success path with a github task source. -/
theorem seqRetryLoop_marking (source : String) (attempts : Nat → String) :
    ∀ (fuel rc : Nat),
      (seqRetryLoop source attempts rc fuel).markedComplete =
        ((source == "github") && (seqRetryLoop source attempts rc fuel).succeeded) := by
  intro fuel
  induction fuel with
  | zero =>
    intro rc
    simp [seqRetryLoop]
  | succ fuel ih =>
    intro rc
    rw [seqRetryLoop]
    by_cases h1 : attempts rc = ""
    · simp only [h1, if_pos rfl]
      exact ih (rc + 1)
    · by_cases h2 : hasErrorRecord (attempts rc) = true
      · simp only [if_neg h1, h2, if_pos rfl]
        exact ih (rc + 1)
      · simp only [if_neg h1, if_neg h2]
        simp

/-- A retry loop fed only empty outputs spends the whole budget and accepts
nothing. -/
theorem agentRetryLoop_all_empty (attempts : Nat → String) :
    ∀ (fuel retry : Nat), (∀ i, i < retry + fuel → attempts i = "") →
      agentRetryLoop attempts retry fuel = (retry + fuel, none) := by
  intro fuel
  induction fuel with
  | zero =>
    intro retry _
    simp [agentRetryLoop]
  | succ fuel ih =>
    intro retry h
    rw [agentRetryLoop]
    rw [if_pos (h retry (by omega))]
    rw [ih (retry + 1) (fun i hi => h i (by omega))]
    congr 1
    omega

/-- An unparseable line anywhere in the stream does not change the parse
accumulator. -/
theorem parseLoop_skip_junk (post : List (Option JsonRecord)) :
    ∀ (pre : List (Option JsonRecord)) (acc : StreamResult),
      parseLoop (pre ++ none :: post) acc = parseLoop (pre ++ post) acc := by
  intro pre
  induction pre with
  | nil =>
    intro acc
    rfl
  | cons l pre ih =>
    intro acc
    cases l with
    | none =>
      simp only [List.cons_append, parseLoop]
      exact ih acc
    | some r =>
      simp only [List.cons_append, parseLoop]
      by_cases h : r.type = some "result"
      · rw [if_pos h, if_pos h]
        exact ih _
      · rw [if_neg h, if_neg h]
        exact ih acc

/-- An unparseable line anywhere in the stream does not change error detection. -/
theorem checkForErrors_skip_junk (post : List (Option JsonRecord)) :
    ∀ pre : List (Option JsonRecord),
      checkForErrors (pre ++ none :: post) = checkForErrors (pre ++ post) := by
  intro pre
  induction pre with
  | nil => rfl
  | cons l pre ih =>
    cases l with
    | none =>
      simp only [List.cons_append, checkForErrors]
      exact ih
    | some r =>
      simp only [List.cons_append, checkForErrors]
      by_cases h : r.type = some "error"
      · rw [if_pos h, if_pos h]
      · rw [if_neg h, if_neg h]
        exact ih

/-- When no line is a result record with non-empty text, the parse loop leaves
the response untouched or sets it to the sentinel. -/
theorem parseLoop_no_result_text :
    ∀ (lines : List (Option JsonRecord)) (acc : StreamResult),
      (∀ l ∈ lines, isResultWithText l = false) →
      (parseLoop lines acc).response = acc.response ∨
      (parseLoop lines acc).response = "Task completed" := by
  intro lines
  induction lines with
  | nil =>
    intro acc _
    exact Or.inl rfl
  | cons l rest ih =>
    intro acc h
    cases l with
    | none =>
      exact ih acc (fun x hx => h x (List.mem_cons_of_mem _ hx))
    | some r =>
      rw [parseLoop]
      by_cases ht : r.type = some "result"
      · rw [if_pos ht]
        have hfalse := h (some r) (List.mem_cons_self _ _)
        rw [isResultWithText] at hfalse
        have hbeq : (r.type == some "result") = true := beq_iff_eq.mpr ht
        rw [hbeq, Bool.true_and, Bool.not_eq_false', beq_iff_eq] at hfalse
        have hres : strOr r.result "Task completed" = "Task completed" := by
          cases hr : r.result with
          | none => rfl
          | some s =>
            rw [hr] at hfalse
            simp at hfalse
            simp [strOr, hfalse]
        rcases ih _ (fun x hx => h x (List.mem_cons_of_mem _ hx)) with h1 | h1
        · right
          rw [h1]
          exact hres
        · right
          exact h1
      · rw [if_neg ht]
        exact ih acc (fun x hx => h x (List.mem_cons_of_mem _ hx))

/-! ## Claim theorems -/

/-- C1: for every ordered list of N pending tasks (N ≥ 1) and concurrency
limit P ≥ 1, the parallel scheduler's batch plan has exactly ceil(N/P)
batches, every batch except the last has exactly P tasks, the last has
N mod P tasks (or P when P divides N), and concatenating the batches in
order restores the original pending-task list. -/
theorem c1_batch_plan (tasks : List String) (p : Nat) (hp : 1 ≤ p) (hn : 1 ≤ tasks.length) :
    (makeBatches tasks p).length = (tasks.length + p - 1) / p ∧
    (makeBatches tasks p).flatten = tasks ∧
    (∀ b ∈ (makeBatches tasks p).dropLast, b.length = p) ∧
    (makeBatches tasks p).getLast?.map List.length =
      some (if tasks.length % p = 0 then p else tasks.length % p) := by
  have hne : tasks ≠ [] := by
    intro h
    rw [h] at hn
    simp at hn
  have hchunk : makeBatches tasks p = chunkList tasks p := by
    rw [makeBatches, batchesFrom_eq_chunk tasks p tasks.length 0 (by omega), List.drop_zero]
  rw [hchunk]
  exact ⟨chunkList_length p hp tasks.length tasks le_rfl,
         chunkList_flatten p hp tasks.length tasks le_rfl,
         chunkList_dropLast p hp tasks.length tasks le_rfl,
         chunkList_getLast p hp tasks.length tasks le_rfl hne⟩

/-- C1 witness: 7 tasks with limit 3 yield 3 batches whose concatenation is
the original list (the spec's own end-to-end example, batch sizes 3, 3, 1). -/
theorem c1_batch_plan_witness :
    (makeBatches ["t1", "t2", "t3", "t4", "t5", "t6", "t7"] 3).length = 3 ∧
    (makeBatches ["t1", "t2", "t3", "t4", "t5", "t6", "t7"] 3).flatten =
      ["t1", "t2", "t3", "t4", "t5", "t6", "t7"] := by
  have h := c1_batch_plan ["t1", "t2", "t3", "t4", "t5", "t6", "t7"] 3 (by omega) (by simp)
  exact ⟨by simpa using h.1, h.2.1⟩

/-- C2: when the raw output of a successful sequential attempt (non-empty,
no error record) contains the `<promise>COMPLETE</promise>` marker, the task
returns the all-done code 2 and the sequential main loop terminates
successfully at once, independently of the remaining-task count. -/
theorem c2_promise_complete (source task : String) (remaining completed : Nat)
    (attempts : Nat → String) (maxRetries iteration maxIterations : Nat)
    (htask : task ≠ "") (hbudget : 0 < maxRetries)
    (hraw : attempts 0 ≠ "") (herr : hasErrorRecord (attempts 0) = false)
    (hmark : hasCompleteMarker (attempts 0) = true) :
    (run_single_task source task remaining completed attempts maxRetries).code = 2 ∧
    mainStep (run_single_task source task remaining completed attempts maxRetries).code
      iteration maxIterations = MainDecision.exitAllDone := by
  have hrun : (run_single_task source task remaining completed attempts maxRetries).code = 2 := by
    rw [run_single_task, if_neg htask]
    cases maxRetries with
    | zero => omega
    | succ fuel =>
      rw [seqRetryLoop]
      simp only [if_neg hraw, herr, hmark]
      simp
  refine ⟨hrun, ?_⟩
  rw [hrun, mainStep, if_pos rfl]

/-- C2 witness: a concrete marker-carrying output ends the run successfully
while 5 tasks are still reported remaining. -/
theorem c2_promise_complete_witness :
    (run_single_task "markdown" "task A" 5 0
        (fun _ => "ok <promise>COMPLETE</promise>") 3).code = 2 ∧
    mainStep (run_single_task "markdown" "task A" 5 0
        (fun _ => "ok <promise>COMPLETE</promise>") 3).code 1 0 = MainDecision.exitAllDone :=
  c2_promise_complete "markdown" "task A" 5 0 (fun _ => "ok <promise>COMPLETE</promise>")
    3 1 0 (by decide) (by omega) (by decide) (by decide) (by decide)

/-- C3 counterexample: a successful attempt with the markdown task source
reaches the success path yet the orchestrator does not mark the task
complete, refuting the claim that it does so for every source type
(ralphy.sh lines 1084-1087 mark only for github). -/
theorem c3_counterexample :
    (run_single_task "markdown" "task one" 2 0 (fun _ => "implemented the feature") 3).succeeded = true ∧
    (run_single_task "markdown" "task one" 2 0 (fun _ => "implemented the feature") 3).markedComplete = false := by
  decide

/-- C3 amended: in the sequential orchestrator the task is marked complete by
the orchestrator itself exactly when the attempt succeeded and the task
source is github; for markdown and yaml sources the orchestrator never marks
(completion is delegated to the agent through the prompt). -/
theorem c3_amended_marking (source task : String) (remaining completed : Nat)
    (attempts : Nat → String) (maxRetries : Nat) :
    (run_single_task source task remaining completed attempts maxRetries).markedComplete =
      ((source == "github") &&
        (run_single_task source task remaining completed attempts maxRetries).succeeded) := by
  rw [run_single_task]
  by_cases htask : task = ""
  · rw [if_pos htask]
    simp
  · rw [if_neg htask]
    exact seqRetryLoop_marking source attempts maxRetries 0

/-- C4: a parallel agent run whose captured raw output is empty on each of
the configured maximum number of attempts ends with terminal status
`failed` after exactly that many invocations, and post-batch bookkeeping
(which marks complete only `done` slots) does not set its completion flag. -/
theorem c4_all_empty_failed (branchName : String) (attempts : Nat → String) (maxRetries : Nat)
    (hempty : ∀ i, i < maxRetries → attempts i = "") :
    (run_parallel_agent true branchName attempts maxRetries).status = "failed" ∧
    (run_parallel_agent true branchName attempts maxRetries).invocations = maxRetries ∧
    postBatchMarks (run_parallel_agent true branchName attempts maxRetries).status = false := by
  have hloop := agentRetryLoop_all_empty attempts maxRetries 0 (fun i hi => hempty i (by omega))
  rw [run_parallel_agent, if_pos rfl, hloop]
  refine ⟨rfl, by simp, ?_⟩
  simp [postBatchMarks]

/-- C4 witness: three empty attempts with the default retry budget of 3 end
`failed` and unmarked. -/
theorem c4_all_empty_failed_witness :
    (run_parallel_agent true "ralphy/agent-1-task" (fun _ => "") 3).status = "failed" ∧
    (run_parallel_agent true "ralphy/agent-1-task" (fun _ => "") 3).invocations = 3 ∧
    postBatchMarks (run_parallel_agent true "ralphy/agent-1-task" (fun _ => "") 3).status = false :=
  c4_all_empty_failed "ralphy/agent-1-task" (fun _ => "") 3 (fun _ _ => rfl)

/-- C5 counterexample: a line whose only feature is a tracker-file mention.
The claimed order (with the tracker-file category checked third) classifies
it as the tracker step, but `detectStepFromOutput` has no tracker-file
category at all and reports no step, refuting the claimed category list. -/
theorem c5_counterexample :
    detectStepFromOutput (some trackerOnlyRec) = none ∧
    firstMatch specStepOrder trackerOnlyRec = some "Updating tracker" ∧
    detectStepFromOutput (some trackerOnlyRec) ≠ firstMatch specStepOrder trackerOnlyRec := by
  decide

/-- C5 amended: `detectStepFromOutput` checks, in this order with the first
match winning: commit keyword, add/staging keyword, lint keyword,
test-runner keyword, test-file-path pattern, write/edit tool name,
read/glob/grep tool name — with no tracker-file category (a tracker-file
check exists only in the shell progress monitor) — and a line matching no
category yields no step change. -/
theorem c5_amended_order (line : Option JsonRecord) :
    detectStepFromOutput line = line.bind (firstMatch codeStepOrder) ∧
    (∀ r, line = some r → (codeStepOrder.all fun c => !(c.1 r)) = true →
      detectStepFromOutput line = none) := by
  constructor
  · cases line with
    | none => rfl
    | some r => rfl
  · intro r hr hall
    subst hr
    simp only [codeStepOrder, List.all_cons, List.all_nil, Bool.and_eq_true,
      Bool.not_eq_true'] at hall
    obtain ⟨h1, h2, h3, h4, h5, h6, h7, -⟩ := hall
    simp [detectStepFromOutput, h1, h2, h3, h4, h5, h6, h7]

/-- C5 amended witness: the tracker-only line matches no implemented
category, so the detector reports no step change. -/
theorem c5_amended_order_witness :
    detectStepFromOutput (some trackerOnlyRec) = none :=
  (c5_amended_order (some trackerOnlyRec)).2 trackerOnlyRec rfl (by decide)

/-- C6 counterexample: the shell parser `parse_ai_result` in Claude mode.
On a raw output with no `"type":"result"` line the emitted responseText is
the empty string, and on a result record without result text it is the
literal "No result text" — in both cases not the claimed
"Task completed" sentinel, refuting the claim for this implementation. -/
theorem c6_counterexample :
    parse_ai_result_claude [⟨"claude banner line, not a result record", none⟩] = "" ∧
    parse_ai_result_claude
      [⟨"a line carrying \"type\":\"result\" with no result field",
        some ⟨some "result", none, none, none, none, none, none, none, none, none, ""⟩⟩] =
      "No result text" := by
  decide

/-- C6 amended: the TypeScript engine parser `parseStreamJsonResult` returns
a non-empty responseText for every raw output, equal to the literal
"Task completed" whenever no line parses as a result record carrying
non-empty result text; the shell `parse_ai_result` in Claude mode does not
share the sentinel default: with no `"type":"result"` line its responseText
is the empty string, and a result record without result text yields
"No result text". -/
theorem c6_amended_response (lines : List (Option JsonRecord)) (slines : List ShellLine) :
    ((parseStreamJsonResult lines).response ≠ "" ∧
      ((∀ l ∈ lines, isResultWithText l = false) →
        (parseStreamJsonResult lines).response = "Task completed")) ∧
    ((∀ l ∈ slines, containsSub l.raw "\"type\":\"result\"" = false) →
      parse_ai_result_claude slines = "") ∧
    (∀ line : ShellLine, ∀ r : JsonRecord, line.parsed = some r → r.result = none →
      claudeResponseOf line = "No result text") := by
  refine ⟨⟨?_, ?_⟩, ?_, ?_⟩
  · rw [parseStreamJsonResult]
    simp only [strOr]
    split
    · intro hcontr
      simp at hcontr
    · assumption
  · intro h
    rw [parseStreamJsonResult]
    rcases parseLoop_no_result_text lines ⟨"", 0, 0⟩ h with h1 | h1
    · simp only [strOr, h1]
      rfl
    · simp only [strOr, h1]
      rfl
  · intro h
    have hfil : (slines.filter fun l => containsSub l.raw "\"type\":\"result\"") = [] := by
      rw [List.filter_eq_nil_iff]
      intro a ha
      simp [h a ha]
    rw [parse_ai_result_claude, hfil]
    rfl
  · intro line r hp hr
    simp [claudeResponseOf, hp, hr]

/-- C6 amended witness: a single non-JSON line gives the empty shell response
in Claude mode, while the TypeScript parser on a single junk line gives the
sentinel. -/
theorem c6_amended_response_witness :
    parse_ai_result_claude [⟨"hello world", none⟩] = "" ∧
    (parseStreamJsonResult [none]).response = "Task completed" := by
  have h := c6_amended_response [none] [⟨"hello world", none⟩]
  exact ⟨h.2.1 (by decide), h.1.2 (by decide)⟩

/-- C7: the parser, the error detector and the step detector are total Lean
functions on arbitrary line streams, an unparseable line is skipped without
affecting the value derived from the remaining lines, and the step detector
yields no step for an unparseable line. -/
theorem c7_malformed_skipped (pre post : List (Option JsonRecord)) :
    parseStreamJsonResult (pre ++ none :: post) = parseStreamJsonResult (pre ++ post) ∧
    checkForErrors (pre ++ none :: post) = checkForErrors (pre ++ post) ∧
    detectStepFromOutput none = none := by
  refine ⟨?_, checkForErrors_skip_junk post pre, rfl⟩
  rw [parseStreamJsonResult, parseStreamJsonResult, parseLoop_skip_junk]

/-- C8: a parallel agent run whose worktree directory is missing after the
create step is terminal `failed` and the agent process is never invoked. -/
theorem c8_worktree_failure (branchName : String) (attempts : Nat → String) (maxRetries : Nat) :
    (run_parallel_agent false branchName attempts maxRetries).status = "failed" ∧
    (run_parallel_agent false branchName attempts maxRetries).invocations = 0 :=
  ⟨rfl, rfl⟩

/-- C9: marking the same task id complete twice leaves the markdown backing
store exactly as marking it once; the second call finds no unchecked
checkbox on that line and changes nothing. -/
theorem c9_markComplete_idempotent (file : List String) (lineNumber : Int) :
    markComplete (markComplete file lineNumber) lineNumber = markComplete file lineNumber := by
  simp only [markComplete]
  by_cases hg : 0 ≤ lineNumber - 1 ∧ lineNumber - 1 < (file.length : Int)
  · rw [if_pos hg]
    have hlen : ((file.set (lineNumber - 1).toNat
        (replaceCheckbox (file.getD (lineNumber - 1).toNat ""))).length : Int) = (file.length : Int) := by
      simp [List.length_set]
    rw [if_pos (by rw [hlen]; exact hg)]
    rw [getD_set_self _ _ _ (by simp [List.length_set]; omega)]
    rw [replaceCheckbox_idem]
    rw [List.set_set]
  · rw [if_neg hg, if_neg hg]

/-- C10: `markComplete` changes at most the single line addressed by the
parsed 1-based line number, and only by rewriting its `- [ ] ` marker to
`- [x] `: the file length is preserved, every other line is unchanged, an
out-of-range line number leaves the file unchanged, an addressed line not
starting with `- [ ] ` leaves the file unchanged, and a matching addressed
line is rewritten in place with only its marker replaced. -/
theorem c10_markComplete_frame (file : List String) (lineNumber : Int) :
    (markComplete file lineNumber).length = file.length ∧
    (∀ j : Nat, (j : Int) ≠ lineNumber - 1 →
      (markComplete file lineNumber).getD j "" = file.getD j "") ∧
    ((lineNumber - 1 < 0 ∨ (file.length : Int) ≤ lineNumber - 1) →
      markComplete file lineNumber = file) ∧
    (0 ≤ lineNumber - 1 → lineNumber - 1 < (file.length : Int) →
      startsWithChars todoMark (file.getD (lineNumber - 1).toNat "").data = false →
      markComplete file lineNumber = file) ∧
    (0 ≤ lineNumber - 1 → lineNumber - 1 < (file.length : Int) →
      startsWithChars todoMark (file.getD (lineNumber - 1).toNat "").data = true →
      markComplete file lineNumber =
        file.set (lineNumber - 1).toNat
          (String.mk (doneMark ++ (file.getD (lineNumber - 1).toNat "").data.drop 6))) := by
  refine ⟨?_, ?_, ?_, ?_, ?_⟩
  · simp only [markComplete]
    by_cases hg : 0 ≤ lineNumber - 1 ∧ lineNumber - 1 < (file.length : Int)
    · rw [if_pos hg, List.length_set]
    · rw [if_neg hg]
  · intro j hj
    simp only [markComplete]
    by_cases hg : 0 ≤ lineNumber - 1 ∧ lineNumber - 1 < (file.length : Int)
    · rw [if_pos hg]
      exact getD_set_ne _ file _ j (by omega)
    · rw [if_neg hg]
  · intro hout
    simp only [markComplete]
    rw [if_neg (by omega)]
  · intro h0 h1 hline
    simp only [markComplete]
    rw [if_pos ⟨h0, h1⟩]
    have hrepl : replaceCheckbox (file.getD (lineNumber - 1).toNat "") =
        file.getD (lineNumber - 1).toNat "" := by
      rw [replaceCheckbox, if_neg (by rw [hline]; simp)]
    rw [hrepl]
    exact set_getD_self file _
  · intro h0 h1 hline
    simp only [markComplete]
    rw [if_pos ⟨h0, h1⟩]
    rw [replaceCheckbox, if_pos hline]

/-- C10 witness: an out-of-range id (line 5 of a 2-line file) leaves the file
unchanged. -/
theorem c10_markComplete_frame_witness :
    markComplete ["- [ ] a", "b"] 5 = ["- [ ] a", "b"] :=
  (c10_markComplete_frame ["- [ ] a", "b"] 5).2.2.1 (by decide)

end Ralphy
